import Mathlib

/-!
Verification of `src/apply-null-fixes.py`, a script that applies a fixed
list of regex substitutions (each with `count=1`) to `src/processor.ts`,
writes the file back when at least one substitution changed the text,
and finally shells out to `npm run build`, reporting the build outcome.

Modelling notes.
* Every configured pattern is an escaped regex literal: each backslash
  escapes the following character (`\n` denoting a newline), and no
  unescaped regex metacharacter occurs.  `regexUnescape` therefore
  compiles a pattern to the plain character list it matches, and
  `re.sub(pattern, repl, content, count=1)` is modelled by `replFirst`,
  which replaces the leftmost occurrence of that literal.  No configured
  replacement text contains a backslash, so Python's template expansion
  of the replacement is the identity and the replacement is inserted
  verbatim.
* Strings are modelled as `List Char`.  Since `{`, `}` and `'` are
  delicate inside Lean string literals, they are written with `\x7b`,
  `\x7d` and `\x27` escapes; the denoted strings are exactly those of
  the Python source.
* File I/O is modelled by `FS`, a map from path to optional content;
  `none` stands for a file that is missing or unreadable, which is the
  fallible step guarded by the script's `try`/`except` block.  The
  `except` handler is modelled by `apply_replacements` returning the
  `FileOutcome.failed` outcome (with its error print) instead of
  propagating a fault.  Write-stage faults are not modelled.
* Console output, file writes and the build invocation are recorded as
  an `Event` trace.  The build subprocess is an external collaborator:
  its exit code and standard error are an input (`BuildResult`), and
  `mainRun` relays them exactly as lines 140-146 of the source do.
-/

set_option maxRecDepth 100000

namespace NullFix

/-- Does `pat` occur as a contiguous substring of the second list?
Scans every start position, mirroring the leftmost-match search of
Python's regex engine on a literal pattern. -/
def occursIn (pat : List Char) : List Char → Bool
  | [] => pat.isEmpty
  | c :: cs => pat.isPrefixOf (c :: cs) || occursIn pat cs

/-- Number of start positions at which `pat` occurs in the list
(overlapping occurrences each count). -/
def occCount (pat : List Char) : List Char → Nat
  | [] => if pat.isEmpty then 1 else 0
  | c :: cs => (if pat.isPrefixOf (c :: cs) then 1 else 0) + occCount pat cs

/-- Replace the leftmost occurrence of the literal `pat` by `rep`;
if `pat` does not occur, return the list unchanged.  This is
`re.sub(pat, rep, s, count=1)` for a literal pattern `pat`. -/
def replFirst (pat rep : List Char) : List Char → List Char
  | [] => if pat.isEmpty then rep else []
  | c :: cs =>
    if pat.isPrefixOf (c :: cs) then rep ++ (c :: cs).drop pat.length
    else c :: replFirst pat rep cs

/-- Interpret an escaped-literal regex: a backslash escapes the next
character (with `\n` denoting a newline); other characters stand for
themselves.  All twenty configured patterns are of this restricted
form (their only escapes are over `' ( ) . ? n { |`), so this is the
exact set of strings each compiled pattern matches. -/
def regexUnescape : List Char → List Char
  | [] => []
  | '\\' :: c :: rest => (if c = 'n' then '\n' else c) :: regexUnescape rest
  | c :: rest => c :: regexUnescape rest

/-- The character list matched by a configured (escaped-literal) regex
pattern string. -/
def compilePat (p : String) : List Char := regexUnescape p.toList

/-- One `re.sub(pattern, repl, content, count=1)` call of line 111 of
the source, for the configured escaped-literal patterns. -/
def reSubFirst (pat rep : String) (content : List Char) : List Char :=
  replFirst (compilePat pat) rep.toList content

/-- One entry of the `replacements` table: a
`(file, old_pattern, new_text)` tuple of the source. -/
structure Rule where
  file : String
  old_pattern : String
  new_text : String
deriving DecidableEq

/-- The `replacements` table of lines 10-97 of the source, transcribed
verbatim (Lean escapes: `\x7b` = left brace, `\x7d` = right brace,
`\x27` = apostrophe, `\\` = backslash, `\n` = newline). -/
def replacements : List Rule := [
  ⟨"src/processor.ts",
   "if \\(data\\.title !== undefined && typeof data\\.title === \\\x27string\\\x27\\) \\\x7b",
   "if (data.title !== undefined && data.title !== null && typeof data.title === \x27string\x27) \x7b"⟩,
  ⟨"src/processor.ts",
   "if \\(!data\\.title\\.trim\\(\\)\\) \\\x7b",
   "if (data.title.trim() === \x27\x27) \x7b"⟩,
  ⟨"src/processor.ts",
   "if \\(data\\.description !== undefined && typeof data\\.description === \\\x27string\\\x27\\) \\\x7b",
   "if (data.description !== undefined && data.description !== null && typeof data.description === \x27string\x27) \x7b"⟩,
  ⟨"src/processor.ts",
   "if \\(!data\\.description\\.trim\\(\\)\\) \\\x7b",
   "if (data.description.trim() === \x27\x27) \x7b"⟩,
  ⟨"src/processor.ts",
   "if \\(data\\.slug !== undefined && typeof data\\.slug === \\\x27string\\\x27\\) \\\x7b",
   "if (data.slug !== undefined && data.slug !== null && typeof data.slug === \x27string\x27) \x7b"⟩,
  ⟨"src/processor.ts",
   "if \\(!data\\.slug\\.trim\\(\\)\\) \\\x7b",
   "if (data.slug.trim() === \x27\x27) \x7b"⟩,
  ⟨"src/processor.ts",
   "if \\(data\\.id !== undefined && typeof data\\.id === \\\x27string\\\x27\\) \\\x7b",
   "if (data.id !== undefined && data.id !== null && typeof data.id === \x27string\x27) \x7b"⟩,
  ⟨"src/processor.ts",
   "if \\(!data\\.id\\.trim\\(\\)\\) \\\x7b",
   "if (data.id.trim() === \x27\x27) \x7b"⟩,
  ⟨"src/processor.ts",
   "  if \\(resolvedUrl\\) \\\x7b\\n    // Use the actual resolved URL",
   "  // Pattern: Explicit null/undefined check for optional parameters\n  if (resolvedUrl !== undefined && resolvedUrl !== null) \x7b\n    // Use the actual resolved URL"⟩,
  ⟨"src/processor.ts",
   "if \\(pathPrefix && pathTransformation\\?\\.ignorePaths\\?\\.includes\\(pathPrefix\\)\\) \\\x7b",
   "// Pattern: Optional chaining with explicit checks\n    if (pathPrefix !== undefined && pathPrefix !== null && pathPrefix !== \x27\x27 &&\n        pathTransformation?.ignorePaths?.includes(pathPrefix)) \x7b"⟩,
  ⟨"src/processor.ts",
   "  // First priority: Use frontmatter description if available\\n  if \\(data\\.description\\) \\\x7b",
   "  // First priority: Use frontmatter description if available\n  // Pattern: Explicit check for non-empty string\n  if (data.description !== undefined && data.description !== null &&\n      typeof data.description === \x27string\x27 && data.description.trim() !== \x27\x27) \x7b"⟩,
  ⟨"src/processor.ts",
   "  // Only remove heading markers at the beginning of descriptions or lines\\n  // This preserves # characters that are part of the content\\n  if \\(description\\) \\\x7b",
   "  // Only remove heading markers at the beginning of descriptions or lines\n  // This preserves # characters that are part of the content\n  // Pattern: Explicit non-empty string check\n  if (description !== undefined && description !== null && description !== \x27\x27) \x7b"⟩,
  ⟨"src/processor.ts",
   "    // Add remaining files if includeUnmatched is true\\n    if \\(includeUnmatched\\) \\\x7b",
   "    // Add remaining files if includeUnmatched is true\n    // Pattern: Explicit boolean check (distinguishes false from undefined)\n    if (includeUnmatched === true) \x7b"⟩,
  ⟨"src/processor.ts",
   "        // Try to find the resolved URL for this file from the route map\\n        let resolvedUrl: string \\| undefined;\\n        if \\(context\\.routeMap\\) \\\x7b",
   "        // Try to find the resolved URL for this file from the route map\n        let resolvedUrl: string | undefined;\n        // Pattern: Explicit null/undefined check for optional property\n        if (context.routeMap !== undefined && context.routeMap !== null) \x7b"⟩,
  ⟨"src/processor.ts",
   "          // ONLY if exact match fails, try numbered prefix removal as fallback\\n          if \\(!resolvedUrl\\) \\\x7b",
   "          // ONLY if exact match fails, try numbered prefix removal as fallback\n          // Pattern: Explicit undefined check\n          if (resolvedUrl === undefined) \x7b"⟩,
  ⟨"src/processor.ts",
   "            // Also handle nested folder structures with numbered prefixes\\n            if \\(!resolvedUrl\\) \\\x7b",
   "            // Also handle nested folder structures with numbered prefixes\n            // Pattern: Explicit undefined check\n            if (resolvedUrl === undefined) \x7b"⟩,
  ⟨"src/processor.ts",
   "                  if \\(resolvedUrl\\) break;",
   "if (resolvedUrl !== undefined) break;"⟩,
  ⟨"src/processor.ts",
   "            // If still not found, try to find the best match using the routesPaths array\\n            if \\(!resolvedUrl && context\\.routesPaths\\) \\\x7b",
   "            // If still not found, try to find the best match using the routesPaths array\n            // Pattern: Explicit undefined check with optional property check\n            if (resolvedUrl === undefined &&\n                context.routesPaths !== undefined && context.routesPaths !== null) \x7b"⟩,
  ⟨"src/processor.ts",
   "              if \\(matchingRoute\\) \\\x7b",
   "// Pattern: Explicit undefined/null check\n              if (matchingRoute !== undefined && matchingRoute !== null) \x7b"⟩,
  ⟨"src/processor.ts",
   "          // Log when we successfully resolve a URL using Docusaurus routes\\n          if \\(resolvedUrl && resolvedUrl !==",
   "          // Log when we successfully resolve a URL using Docusaurus routes\n          // Pattern: Explicit check for defined and different value\n          if (resolvedUrl !== undefined && resolvedUrl !== null &&\n              resolvedUrl !=="⟩
]

/-- The `(old_pattern, new_text)` pairs grouped under `src/processor.ts`
(all twenty rules target that one file). -/
def procPatterns : List (String × String) :=
  replacements.map fun r => (r.old_pattern, r.new_text)

/-- The grouping loop of lines 126-131: build an association list from
file path to its pattern list, preserving first-seen file order (the
Python `dict` preserves insertion order). -/
def groupByFile : List Rule → List (String × List (String × String)) →
    List (String × List (String × String))
  | [], acc => acc
  | r :: rest, acc =>
    if acc.any (fun e => e.1 == r.file) then
      groupByFile rest (acc.map fun e =>
        if e.1 == r.file then (e.1, e.2 ++ [(r.old_pattern, r.new_text)]) else e)
    else
      groupByFile rest (acc ++ [(r.file, [(r.old_pattern, r.new_text)])])

/-- `files_to_process` of line 127 of the source. -/
def files_to_process : List (String × List (String × String)) :=
  groupByFile replacements []

/-- The substitution loop of lines 110-114: thread the content and the
`changes_made` counter through each rule, counting a change exactly when
the substituted text differs from the previous content. -/
def applyPatterns : List (String × String) → List Char → Nat → List Char × Nat
  | [], content, changes => (content, changes)
  | pr :: rest, content, changes =>
    let newContent := reSubFirst pr.1 pr.2 content
    if newContent ≠ content then applyPatterns rest newContent (changes + 1)
    else applyPatterns rest content changes

/-- The content after one full pass of the configured rule set, starting
from a fresh `changes_made = 0` counter (the loop of lines 110-114). -/
def passOnce (content : List Char) : List Char :=
  (applyPatterns procPatterns content 0).1

/-- Modelled from the spec: "track whether any substitution occurred; if
at least one rule matched" — some rule's pattern matches the content it
is tried against during the sequential run. -/
def anyMatched : List (String × String) → List Char → Bool
  | [], _ => false
  | pr :: rest, content =>
    occursIn (compilePat pr.1) content ||
      anyMatched rest (reSubFirst pr.1 pr.2 content)

/-- The file system: each path optionally has a content.  `none` stands
for a file that is missing or unreadable, the fault guarded by the
`try`/`except` of lines 103-124. -/
structure FS where
  contents : String → Option (List Char)

/-- The observable effects of a run: console prints, file reads and
writes (with the encoding passed to `open`), and build invocations. -/
inductive Event where
  | consolePrint (line : String)
  | fileRead (path : String) (encoding : String)
  | fileWrite (path : String) (content : List Char) (encoding : String)
  | buildRun (cmd : List String)
deriving DecidableEq

/-- Is this event a file write? -/
def Event.isWrite : Event → Bool
  | .fileWrite _ _ _ => true
  | _ => false

/-- Is this event a build invocation? -/
def Event.isBuild : Event → Bool
  | .buildRun _ => true
  | _ => false

/-- Does this event, when it is a read or write, target the given path
with UTF-8 encoding?  (Prints and build runs pass trivially.) -/
def Event.utf8At (file_path : String) : Event → Bool
  | .fileRead p enc => p == file_path && enc == "utf-8"
  | .fileWrite p _ enc => p == file_path && enc == "utf-8"
  | _ => true

/-- Per-file outcome: how the `try` block of `apply_replacements`
finished. -/
inductive FileOutcome where
  | applied (changes : Nat)
  | noChanges
  | failed
deriving DecidableEq

/-- Result of one `apply_replacements` call: the file system afterwards,
the emitted events, and the per-file outcome. -/
structure FileRun where
  fs : FS
  events : List Event
  outcome : FileOutcome

/-- The encoding passed to `open(file_path, 'r', encoding='utf-8')` on
line 104 of the source. -/
def readEncoding : String := "utf-8"

/-- The encoding passed to `open(file_path, 'w', encoding='utf-8')` on
line 117 of the source. -/
def writeEncoding : String := "utf-8"

/-- Modelled from the spec: "using the platform's default text
encoding" — both the read and the write would use the platform's
default encoding. -/
def usesDefaultEncoding (platformDefault : String) : Prop :=
  readEncoding = platformDefault ∧ writeEncoding = platformDefault

/-- `apply_replacements` (lines 99-124): print the header, read the
file (a missing/unreadable file is the caught exception, reported as a
failure), run the substitution loop, and write the file back exactly
when `changes_made > 0`. -/
def apply_replacements (fs : FS) (file_path : String)
    (patterns : List (String × String)) : FileRun :=
  let header := Event.consolePrint ("Processing " ++ file_path ++ "...")
  match fs.contents file_path with
  | none =>
    ⟨fs, [header, Event.fileRead file_path readEncoding,
          Event.consolePrint ("  ✗ Error processing " ++ file_path)],
     FileOutcome.failed⟩
  | some content =>
    let r := applyPatterns patterns content 0
    if r.2 > 0 then
      ⟨⟨fun p => if p = file_path then some r.1 else fs.contents p⟩,
       [header, Event.fileRead file_path readEncoding,
        Event.fileWrite file_path r.1 writeEncoding,
        Event.consolePrint ("  ✓ Applied " ++ toString r.2 ++ " changes to " ++ file_path)],
       FileOutcome.applied r.2⟩
    else
      ⟨fs, [header, Event.fileRead file_path readEncoding,
            Event.consolePrint ("  - No changes needed for " ++ file_path)],
       FileOutcome.noChanges⟩

/-- Accumulated state of the whole run. -/
structure RunState where
  fs : FS
  events : List Event
  outcomes : List FileOutcome

/-- The driver loop of lines 134-135: process each configured file in
order, threading the file system through. -/
def processAll : FS → List (String × List (String × String)) → RunState
  | fs, [] => ⟨fs, [], []⟩
  | fs, (file_path, patterns) :: rest =>
    let r := apply_replacements fs file_path patterns
    let s := processAll r.fs rest
    ⟨s.fs, r.events ++ s.events, r.outcome :: s.outcomes⟩

/-- Exit status and captured standard error of the external build
subprocess (an input to the model: the collaborator's behaviour). -/
structure BuildResult where
  returncode : Int
  stderr : String

/-- The build command of line 141. -/
def buildCmd : List String := ["npm", "run", "build"]

/-- The reporting of lines 142-146: success message on exit status 0,
otherwise the failure header and the captured standard error. -/
def buildReport (result : BuildResult) : List Event :=
  if result.returncode = 0 then [Event.consolePrint "✓ Build successful!"]
  else [Event.consolePrint "✗ Build failed:", Event.consolePrint result.stderr]

/-- The completion message of line 137. -/
def completionMsg : String := "\n✓ All null/undefined handling fixes applied!"

/-- The message of line 138. -/
def runningMsg : String := "Running build to verify..."

/-- The whole script (lines 126-146): process every configured file,
print the completion messages, invoke the build once, and report its
outcome. -/
def mainRun (fs : FS) (build : BuildResult) : RunState :=
  let s := processAll fs files_to_process
  ⟨s.fs,
   s.events ++
     [Event.consolePrint completionMsg, Event.consolePrint runningMsg,
      Event.buildRun buildCmd] ++ buildReport build,
   s.outcomes⟩

/-- Occurrence of `pat` at start position `i` of `s`. -/
def occursAt (pat s : List Char) (i : Nat) : Prop :=
  (s.drop i).take pat.length = pat

instance (pat s : List Char) (i : Nat) : Decidable (occursAt pat s i) := by
  unfold occursAt; infer_instance

/-- Does some prefix of `Y` of length `k` equal the suffix of `p` of
length `k`? -/
def cutPS (Y p : List Char) (k : Nat) : Bool :=
  Y.take k == p.drop (p.length - k)

/-- Does some suffix of `Y` of length `k` equal the prefix of `p` of
length `k`? -/
def cutSP (Y p : List Char) (k : Nat) : Bool :=
  Y.drop (Y.length - k) == p.take k

/-- No occurrence of `p` can overlap an occurrence of `Y` in any
string: neither is a substring of the other, no nonempty prefix of `Y`
is a suffix of `p`, and no nonempty suffix of `Y` is a prefix of `p`. -/
def separated (Y p : List Char) : Bool :=
  !(occursIn Y p) && !(occursIn p Y) &&
    ((List.range (min Y.length p.length)).all fun k =>
      !(cutPS Y p (k + 1)) && !(cutSP Y p (k + 1)))

/-- The example input line of the spec (rule 1's pattern, unescaped). -/
def titleLine : String :=
  "if (data.title !== undefined && typeof data.title === \x27string\x27) \x7b"

/-- The example output line of the spec (rule 1's replacement). -/
def titleLineFixed : String :=
  "if (data.title !== undefined && data.title !== null && typeof data.title === \x27string\x27) \x7b"

/-- The compiled literal of rule 17 (the `resolvedUrl break` rule), used
to build a content in which that pattern occurs twice. -/
def breakLit : List Char :=
  ("                  if (resolvedUrl) break;").toList

/-- A content containing rule 17's literal twice: the first pass
rewrites only the first copy, the second pass rewrites the other. -/
def doubleBreak : List Char := breakLit ++ breakLit

/-- A five-character content matching none of the configured patterns. -/
def sampleContent : List Char := "hello".toList

/-- A file system holding only `src/processor.ts` with `sampleContent`. -/
def fsSample : FS :=
  ⟨fun p => if p = "src/processor.ts" then some sampleContent else none⟩

/-- A file system holding only `src/processor.ts`, whose content is the
spec's example line. -/
def fsTitle : FS :=
  ⟨fun p => if p = "src/processor.ts" then some titleLine.toList else none⟩

/-- The empty file system: every file is missing. -/
def fsEmpty : FS := ⟨fun _ => none⟩

/-- Rule 1's pattern string as written in the source. -/
def titlePattern : String :=
  "if \\(data\\.title !== undefined && typeof data\\.title === \\\x27string\\\x27\\) \\\x7b"

/-- The first entry of the `replacements` table. -/
def rule1 : Rule := ⟨"src/processor.ts", titlePattern, titleLineFixed⟩

/-- A failing build result: nonzero exit status with some error text. -/
def buildFail : BuildResult := ⟨1, "error output"⟩

/-! ## Basic facts about literal-pattern substitution -/

theorem occursIn_cons (pat : List Char) (c : Char) (cs : List Char) :
    occursIn pat (c :: cs) = (pat.isPrefixOf (c :: cs) || occursIn pat cs) := rfl

/-- A pattern with no occurrence leaves the content unchanged
(`re.sub` finds no match). -/
theorem replFirst_of_not_occurs (pat rep : List Char) :
    ∀ s, occursIn pat s = false → replFirst pat rep s = s := by
  intro s
  induction s with
  | nil =>
    intro h
    simp only [occursIn] at h
    simp [replFirst, h]
  | cons c cs ih =>
    intro h
    rw [occursIn_cons, Bool.or_eq_false_iff] at h
    rw [replFirst, if_neg (by simp [h.1]), ih h.2]

/-- A pattern that occurs, replaced by a different text, changes the
content. -/
theorem replFirst_ne_of_occurs (pat rep : List Char) (hne : pat ≠ rep) :
    ∀ s, occursIn pat s = true → replFirst pat rep s ≠ s := by
  intro s
  induction s with
  | nil =>
    intro h
    simp only [occursIn, List.isEmpty_iff] at h
    subst h
    simp only [replFirst, List.isEmpty_nil, if_true, reduceIte]
    intro hc
    exact hne (hc ▸ rfl)
  | cons c cs ih =>
    intro h
    by_cases hp : pat.isPrefixOf (c :: cs)
    · obtain ⟨t, ht⟩ := List.isPrefixOf_iff_prefix.mp hp
      rw [replFirst, if_pos hp]
      intro hc
      rw [← ht, List.drop_left] at hc
      exact hne (List.append_cancel_right hc).symm
    · rw [occursIn_cons, Bool.or_eq_true] at h
      have h' : occursIn pat cs = true := by
        rcases h with h | h
        · exact absurd h hp
        · exact h
      rw [replFirst, if_neg hp]
      intro hc
      exact ih h' (List.cons_injective.eq_iff.mp hc)

/-- For a rule whose replacement differs from its pattern, the
substitution changes the content exactly when the pattern occurs. -/
theorem replFirst_ne_iff (pat rep : List Char) (hne : pat ≠ rep) (s : List Char) :
    replFirst pat rep s ≠ s ↔ occursIn pat s = true := by
  constructor
  · intro h
    by_contra hc
    exact h (replFirst_of_not_occurs pat rep s (Bool.eq_false_iff.mpr hc))
  · exact replFirst_ne_of_occurs pat rep hne s

/-- A list that displays an occurrence of `pat` has at least one
occurrence position. -/
theorem one_le_occCount (pat b : List Char) : ∀ a, 1 ≤ occCount pat (a ++ pat ++ b) := by
  intro a
  induction a with
  | nil =>
    rw [List.nil_append]
    match hx : pat ++ b with
    | [] =>
      rcases List.append_eq_nil.mp hx with ⟨h1, _⟩
      rw [h1]
      simp [occCount]
    | c :: cs =>
      have hp : pat.isPrefixOf (c :: cs) = true := by
        rw [← hx]
        exact List.isPrefixOf_iff_prefix.mpr ⟨b, rfl⟩
      rw [occCount, hp]
      simp
  | cons x a' ih =>
    rw [List.cons_append, List.cons_append, occCount]
    split <;> omega

/-- Exactly-one-occurrence substitution: when the pattern occurs exactly
once, `replFirst` replaces that occurrence and every character outside
the matched span is kept. -/
theorem replFirst_single (pat rep : List Char) :
    ∀ pre suf, occCount pat (pre ++ pat ++ suf) = 1 →
      replFirst pat rep (pre ++ pat ++ suf) = pre ++ rep ++ suf := by
  intro pre
  induction pre with
  | nil =>
    intro suf _
    rw [List.nil_append, List.nil_append]
    match hx : pat ++ suf with
    | [] =>
      rcases List.append_eq_nil.mp hx with ⟨h1, h2⟩
      rw [h1, h2] at hx ⊢
      simp [replFirst]
    | c :: cs =>
      have hp : pat.isPrefixOf (c :: cs) = true := by
        rw [← hx]
        exact List.isPrefixOf_iff_prefix.mpr ⟨suf, rfl⟩
      rw [replFirst, if_pos hp, ← hx, List.drop_left]
  | cons x pre' ih =>
    intro suf h1
    rw [List.cons_append, List.cons_append, occCount] at h1
    have hrest : 1 ≤ occCount pat (pre' ++ pat ++ suf) := one_le_occCount pat suf pre'
    have hp : pat.isPrefixOf (x :: (pre' ++ pat ++ suf)) = false := by
      by_contra hc
      rw [Bool.not_eq_false] at hc
      rw [if_pos hc] at h1
      omega
    have h2 : occCount pat (pre' ++ pat ++ suf) = 1 := by
      simp only [hp, if_false, Bool.false_eq_true] at h1
      omega
    show replFirst pat rep ((x :: pre') ++ pat ++ suf) = (x :: pre') ++ rep ++ suf
    rw [List.cons_append, List.cons_append, replFirst,
      if_neg (by simp only [← List.isPrefixOf_iff_prefix, Bool.not_eq_true]; simpa using hp), ih suf h2,
      ← List.cons_append, ← List.cons_append]

/-! ## The substitution loop of lines 110-114 -/

/-- The final content of the loop does not depend on the initial value
of the `changes_made` counter. -/
theorem applyPatterns_fst_counter (ps : List (String × String)) :
    ∀ c n m, (applyPatterns ps c n).1 = (applyPatterns ps c m).1 := by
  induction ps with
  | nil => intro c n m; rfl
  | cons pr rest ih =>
    intro c n m
    simp only [applyPatterns]
    split
    · exact ih _ _ _
    · exact ih _ _ _

/-- The `changes_made` counter never decreases. -/
theorem le_applyPatterns_snd (ps : List (String × String)) :
    ∀ c n, n ≤ (applyPatterns ps c n).2 := by
  induction ps with
  | nil => intro c n; exact le_refl n
  | cons pr rest ih =>
    intro c n
    simp only [applyPatterns]
    split
    · exact le_trans (Nat.le_succ n) (ih _ _)
    · exact ih _ _

/-- One loop step: the later content is the substituted content,
whatever the counter did. -/
theorem applyPatterns_cons_fst (pr : String × String)
    (rest : List (String × String)) (c : List Char) (n : Nat) :
    (applyPatterns (pr :: rest) c n).1
      = (applyPatterns rest (reSubFirst pr.1 pr.2 c) 0).1 := by
  simp only [applyPatterns]
  by_cases h : reSubFirst pr.1 pr.2 c ≠ c
  · rw [if_pos h]
    exact applyPatterns_fst_counter rest _ _ _
  · rw [if_neg h]
    have h0 : reSubFirst pr.1 pr.2 c = c := not_ne_iff.mp h
    rw [h0]
    exact applyPatterns_fst_counter rest _ _ _

/-- When no configured pattern occurs in the content, the loop changes
nothing and counts nothing. -/
theorem applyPatterns_of_no_match (c : List Char) (ps : List (String × String)) :
    (∀ pr ∈ ps, occursIn (compilePat pr.1) c = false) →
      ∀ n, applyPatterns ps c n = (c, n) := by
  induction ps with
  | nil => intro _ n; rfl
  | cons pr rest ih =>
    intro h n
    have h0 : reSubFirst pr.1 pr.2 c = c :=
      replFirst_of_not_occurs _ _ c (h pr (List.mem_cons_self pr rest))
    simp only [applyPatterns]
    rw [if_neg (by simp [h0]), ih (fun q hq => h q (List.mem_cons_of_mem pr hq)) n]

/-- The loop counts a change exactly when some rule's pattern matched
the content it was tried against, provided each rule's replacement
differs from its pattern (true of every configured rule). -/
theorem applyPatterns_pos_iff (ps : List (String × String)) :
    (∀ pr ∈ ps, compilePat pr.1 ≠ pr.2.toList) →
      ∀ c n, (n < (applyPatterns ps c n).2 ↔ anyMatched ps c = true) := by
  induction ps with
  | nil => intro _ c n; simp [applyPatterns, anyMatched]
  | cons pr rest ih =>
    intro hps c n
    have hpr : compilePat pr.1 ≠ pr.2.toList := hps pr (List.mem_cons_self pr rest)
    have hrest : ∀ q ∈ rest, compilePat q.1 ≠ q.2.toList :=
      fun q hq => hps q (List.mem_cons_of_mem pr hq)
    simp only [applyPatterns, anyMatched]
    by_cases h : reSubFirst pr.1 pr.2 c ≠ c
    · rw [if_pos h]
      have hm : occursIn (compilePat pr.1) c = true :=
        (replFirst_ne_iff _ _ hpr c).mp h
      constructor
      · intro _
        simp [hm]
      · intro _
        have h1 := le_applyPatterns_snd rest (reSubFirst pr.1 pr.2 c) (n + 1)
        omega
    · rw [if_neg h]
      have h0 : reSubFirst pr.1 pr.2 c = c := not_ne_iff.mp h
      have hm : occursIn (compilePat pr.1) c = false := by
        cases hval : occursIn (compilePat pr.1) c with
        | false => rfl
        | true => exact absurd h0 (replFirst_ne_of_occurs _ _ hpr c hval)
      rw [h0, hm]
      simp only [Bool.false_or]
      exact ih hrest c n

/-! ## Occurrence positions -/

theorem occursAt_zero_iff (pat s : List Char) :
    occursAt pat s 0 ↔ pat.isPrefixOf s = true := by
  rw [occursAt, List.drop_zero, List.isPrefixOf_iff_prefix, List.prefix_iff_eq_take]
  exact eq_comm

theorem occursAt_succ (pat : List Char) (c : Char) (cs : List Char) (i : Nat) :
    occursAt pat (c :: cs) (i + 1) ↔ occursAt pat cs i := by
  rw [occursAt, occursAt, List.drop_succ_cons]

theorem occursIn_iff_exists (pat : List Char) :
    ∀ s, (occursIn pat s = true ↔ ∃ i, occursAt pat s i) := by
  intro s
  induction s with
  | nil =>
    simp only [occursIn, List.isEmpty_iff]
    constructor
    · intro h
      exact ⟨0, by rw [h]; rfl⟩
    · rintro ⟨i, hi⟩
      rw [occursAt] at hi
      simpa using hi.symm
  | cons c cs ih =>
    rw [occursIn_cons, Bool.or_eq_true, ih]
    constructor
    · rintro (h | ⟨i, hi⟩)
      · exact ⟨0, (occursAt_zero_iff pat (c :: cs)).mpr h⟩
      · exact ⟨i + 1, (occursAt_succ pat c cs i).mpr hi⟩
    · rintro ⟨i, hi⟩
      cases i with
      | zero => exact Or.inl ((occursAt_zero_iff pat (c :: cs)).mp hi)
      | succ j => exact Or.inr ⟨j, (occursAt_succ pat c cs j).mp hi⟩

theorem occursIn_self (s : List Char) : occursIn s s = true :=
  (occursIn_iff_exists s s).mpr ⟨0, by rw [occursAt]; simp⟩

/-- `replFirst` rewrites exactly the leftmost occurrence: at the minimal
occurrence position, the text decomposes around the match. -/
theorem replFirst_min (pat rep : List Char) :
    ∀ s i, occursAt pat s i → (∀ j, j < i → ¬ occursAt pat s j) →
      replFirst pat rep s = s.take i ++ rep ++ s.drop (i + pat.length) := by
  intro s
  induction s with
  | nil =>
    intro i hi hmin
    rw [occursAt] at hi
    have hp : pat = [] := by simpa using hi.symm
    subst hp
    have hi0 : i = 0 := by
      by_contra h0
      exact hmin 0 (Nat.pos_of_ne_zero h0) (by rw [occursAt]; rfl)
    subst hi0
    simp [replFirst]
  | cons c cs ih =>
    intro i hi hmin
    cases i with
    | zero =>
      have hp : pat.isPrefixOf (c :: cs) = true := (occursAt_zero_iff pat (c :: cs)).mp hi
      rw [replFirst, if_pos hp, List.take_zero, Nat.zero_add, List.nil_append]
    | succ i' =>
      have hp : pat.isPrefixOf (c :: cs) = false := by
        cases hval : pat.isPrefixOf (c :: cs) with
        | false => rfl
        | true =>
          exact absurd ((occursAt_zero_iff pat (c :: cs)).mpr hval)
            (hmin 0 (Nat.succ_pos i'))
      have hi' : occursAt pat cs i' := (occursAt_succ pat c cs i').mp hi
      have hmin' : ∀ j, j < i' → ¬ occursAt pat cs j := fun j hj hocc =>
        hmin (j + 1) (Nat.succ_lt_succ hj) ((occursAt_succ pat c cs j).mpr hocc)
      have harith : i' + 1 + pat.length = (i' + pat.length) + 1 := by omega
      rw [replFirst, if_neg (by simp [hp]), ih i' hi' hmin', harith,
        List.drop_succ_cons, List.take_succ_cons, List.cons_append, List.cons_append]

theorem exists_min_occursAt (pat s : List Char) (h : occursIn pat s = true) :
    ∃ i, occursAt pat s i ∧ ∀ j, j < i → ¬ occursAt pat s j := by
  have hex : ∃ i, occursAt pat s i := (occursIn_iff_exists pat s).mp h
  exact ⟨Nat.find hex, Nat.find_spec hex, fun j hj => Nat.find_min hex hj⟩

theorem occursAt_take (Y s : List Char) (i j : Nat)
    (hj : occursAt Y s j) (hle : j + Y.length ≤ i) : occursAt Y (s.take i) j := by
  rw [occursAt] at hj ⊢
  rw [List.drop_take, List.take_take, min_eq_left (by omega)]
  exact hj

theorem occursAt_drop (Y s : List Char) (m j : Nat)
    (hj : occursAt Y s j) (hle : m ≤ j) : occursAt Y (s.drop m) (j - m) := by
  rw [occursAt] at hj ⊢
  have harith : m + (j - m) = j := by omega
  rw [List.drop_drop, harith]
  exact hj

theorem occursIn_append_left (pat a b : List Char) (h : occursIn pat a = true) :
    occursIn pat (a ++ b) = true := by
  induction a with
  | nil =>
    simp only [occursIn, List.isEmpty_iff] at h
    subst h
    cases b with
    | nil => rfl
    | cons c cs => rfl
  | cons x xs ih =>
    rw [occursIn_cons, Bool.or_eq_true] at h
    rw [List.cons_append, occursIn_cons]
    rcases h with h1 | h2
    · have hpre : pat <+: (x :: xs) ++ b :=
        (List.isPrefixOf_iff_prefix.mp h1).trans (List.prefix_append _ _)
      rw [List.cons_append] at hpre
      rw [List.isPrefixOf_iff_prefix.mpr hpre]
      rfl
    · rw [ih h2]
      simp

theorem occursIn_append_right (pat a b : List Char) (h : occursIn pat b = true) :
    occursIn pat (a ++ b) = true := by
  induction a with
  | nil => simpa using h
  | cons x xs ih =>
    rw [List.cons_append, occursIn_cons, ih]
    simp

/-- The text inserted by a successful substitution occurs in the
result. -/
theorem replFirst_contains_rep (pat rep : List Char) :
    ∀ s, occursIn pat s = true → occursIn rep (replFirst pat rep s) = true := by
  intro s
  induction s with
  | nil =>
    intro h
    simp only [occursIn, List.isEmpty_iff] at h
    subst h
    simp only [replFirst, List.isEmpty_nil, reduceIte]
    exact occursIn_self rep
  | cons c cs ih =>
    intro h
    by_cases hp : pat.isPrefixOf (c :: cs)
    · rw [replFirst, if_pos hp]
      exact occursIn_append_left rep rep _ (occursIn_self rep)
    · rw [occursIn_cons, Bool.or_eq_true] at h
      have h' : occursIn pat cs = true := by
        rcases h with h | h
        · exact absurd h hp
        · exact h
      rw [replFirst, if_neg hp, occursIn_cons, ih h']
      simp

/-! ## Overlap-freeness -/

theorem separated_spec (Y p : List Char) (hsep : separated Y p = true) :
    occursIn Y p = false ∧ occursIn p Y = false ∧
      ∀ t, 0 < t → t ≤ Y.length → t ≤ p.length →
        (cutPS Y p t = false ∧ cutSP Y p t = false) := by
  rw [separated] at hsep
  simp only [Bool.and_eq_true, Bool.not_eq_true', List.all_eq_true,
    List.mem_range] at hsep
  obtain ⟨⟨h1, h2⟩, h3⟩ := hsep
  refine ⟨h1, h2, fun t ht hty htp => ?_⟩
  have hlt : t - 1 < min Y.length p.length := by omega
  have h4 := h3 (t - 1) hlt
  have ht1 : t - 1 + 1 = t := by omega
  rw [ht1] at h4
  exact h4

/-- When `Y` and `p` are `separated`, any occurrence of `p` is disjoint
from any occurrence of `Y` in the same string. -/
theorem occursAt_disjoint (Y p s : List Char) (hsep : separated Y p = true)
    (i j : Nat) (hp : occursAt p s i) (hY : occursAt Y s j) :
    j + Y.length ≤ i ∨ i + p.length ≤ j := by
  obtain ⟨hYp, hpY, hcut⟩ := separated_spec Y p hsep
  by_contra hc
  push_neg at hc
  obtain ⟨hc1, hc2⟩ := hc
  rw [occursAt] at hp hY
  rcases le_or_lt i j with hij | hij
  · set k := j - i with hk
    have hkp : k < p.length := by omega
    have hsdj : s.drop j = (s.drop i).drop k := by
      rw [List.drop_drop]
      congr 1
      omega
    have hpk : p.drop k = ((s.drop i).drop k).take (p.length - k) := by
      conv_lhs => rw [← hp]
      rw [List.drop_take]
    rcases le_or_lt (k + Y.length) p.length with hin | hin
    · have hYinp : (p.drop k).take Y.length = Y := by
        rw [hpk, List.take_take, min_eq_left (by omega), ← hsdj, hY]
      have hocc : occursIn Y p = true :=
        (occursIn_iff_exists Y p).mpr ⟨k, by rw [occursAt]; exact hYinp⟩
      rw [hYp] at hocc
      simp at hocc
    · set t := p.length - k with htdef
      have ht0 : 0 < t := by omega
      have htY : t ≤ Y.length := by omega
      have htp : t ≤ p.length := by omega
      have hYt : Y.take t = (s.drop j).take t := by
        conv_lhs => rw [← hY]
        rw [List.take_take, min_eq_left htY]
      have hshim : Y.take t = p.drop k := by
        rw [hYt, hsdj, hpk]
      have hcutt := (hcut t ht0 htY htp).1
      rw [cutPS] at hcutt
      have hk2 : p.length - t = k := by omega
      rw [hk2, hshim] at hcutt
      simp at hcutt
  · set k := i - j with hk
    have hkY : k < Y.length := by omega
    have hsdi : s.drop i = (s.drop j).drop k := by
      rw [List.drop_drop]
      congr 1
      omega
    have hYk : Y.drop k = ((s.drop j).drop k).take (Y.length - k) := by
      conv_lhs => rw [← hY]
      rw [List.drop_take]
    rcases le_or_lt (k + p.length) Y.length with hin | hin
    · have hpinY : (Y.drop k).take p.length = p := by
        rw [hYk, List.take_take, min_eq_left (by omega), ← hsdi, hp]
      have hocc : occursIn p Y = true :=
        (occursIn_iff_exists p Y).mpr ⟨k, by rw [occursAt]; exact hpinY⟩
      rw [hpY] at hocc
      simp at hocc
    · set t := Y.length - k with htdef
      have ht0 : 0 < t := by omega
      have htp : t ≤ p.length := by omega
      have htY : t ≤ Y.length := by omega
      have hpt : p.take t = (s.drop i).take t := by
        conv_lhs => rw [← hp]
        rw [List.take_take, min_eq_left htp]
      have hshim : Y.drop k = p.take t := by
        rw [hpt, hsdi, hYk]
      have hcutt := (hcut t ht0 htY htp).2
      rw [cutSP] at hcutt
      have hk2 : Y.length - t = k := by omega
      rw [hk2, hshim] at hcutt
      simp at hcutt

/-- A substitution whose pattern cannot overlap `Y` preserves every
occurrence of `Y`. -/
theorem replFirst_preserves (Y p rep s : List Char)
    (hsep : separated Y p = true) (h : occursIn Y s = true) :
    occursIn Y (replFirst p rep s) = true := by
  cases hocc : occursIn p s with
  | false => rw [replFirst_of_not_occurs p rep s hocc]; exact h
  | true =>
    obtain ⟨i, hi, hmin⟩ := exists_min_occursAt p s hocc
    rw [replFirst_min p rep s i hi hmin]
    obtain ⟨j, hj⟩ := (occursIn_iff_exists Y s).mp h
    rcases occursAt_disjoint Y p s hsep i j hi hj with hd | hd
    · have htake : occursIn Y (s.take i) = true :=
        (occursIn_iff_exists Y _).mpr ⟨j, occursAt_take Y s i j hj hd⟩
      rw [List.append_assoc]
      exact occursIn_append_left Y _ _ htake
    · have hdrop : occursIn Y (s.drop (i + p.length)) = true :=
        (occursIn_iff_exists Y _).mpr
          ⟨j - (i + p.length), occursAt_drop Y s (i + p.length) j hj hd⟩
      exact occursIn_append_right Y _ _ hdrop

/-- A whole pass of rules, each `separated` from `Y`, preserves every
occurrence of `Y`. -/
theorem applyPatterns_preserves (Y : List Char) (ps : List (String × String)) :
    (∀ pr ∈ ps, separated Y (compilePat pr.1) = true) →
      ∀ c n, occursIn Y c = true → occursIn Y ((applyPatterns ps c n).1) = true := by
  induction ps with
  | nil => intro _ c n h; exact h
  | cons pr rest ih =>
    intro hps c n h
    have hstep : occursIn Y (reSubFirst pr.1 pr.2 c) = true :=
      replFirst_preserves Y (compilePat pr.1) pr.2.toList c
        (hps pr (List.mem_cons_self pr rest)) h
    have hrest : ∀ q ∈ rest, separated Y (compilePat q.1) = true :=
      fun q hq => hps q (List.mem_cons_of_mem pr hq)
    simp only [applyPatterns]
    split
    · exact ih hrest _ _ hstep
    · exact ih hrest _ _ h

/-! ## Run-level structure -/

/-- Each configured rule's replacement differs from the literal its
pattern matches (checked over the transcription of the table). -/
theorem procPatterns_repl_ne :
    ∀ pr ∈ procPatterns, compilePat pr.1 ≠ pr.2.toList := by decide

/-- No rule after the first can overlap an occurrence of rule 1's
replacement line (checked over the transcription of the table). -/
theorem titleFixed_separated :
    ∀ pr ∈ procPatterns.drop 1,
      separated titleLineFixed.toList (compilePat pr.1) = true := by decide

/-- Sanity: the grouping of lines 126-131 yields the single target file
with all twenty patterns in order. -/
theorem files_to_process_eq :
    files_to_process = [("src/processor.ts", procPatterns)] := by decide

/-- Processing one file never invokes the build. -/
theorem apply_replacements_no_build (fs : FS) (path : String)
    (patterns : List (String × String)) :
    (apply_replacements fs path patterns).events.all
      (fun e => !(Event.isBuild e)) = true := by
  cases h : fs.contents path with
  | none => simp [apply_replacements, h, Event.isBuild]
  | some content =>
    simp only [apply_replacements, h]
    split
    · simp [Event.isBuild]
    · simp [Event.isBuild]

/-- The driver loop never invokes the build. -/
theorem processAll_no_build (files : List (String × List (String × String))) :
    ∀ fs, ((processAll fs files).events.all (fun e => !(Event.isBuild e))) = true := by
  induction files with
  | nil => intro fs; rfl
  | cons f rest ih =>
    intro fs
    obtain ⟨path, patterns⟩ := f
    simp only [processAll, List.all_append]
    rw [apply_replacements_no_build, ih]
    rfl

/-- The driver loop reports one outcome per configured file. -/
theorem processAll_length (files : List (String × List (String × String))) :
    ∀ fs, (processAll fs files).outcomes.length = files.length := by
  induction files with
  | nil => intro fs; rfl
  | cons f rest ih =>
    intro fs
    obtain ⟨path, patterns⟩ := f
    simp only [processAll, List.length_cons]
    rw [ih]

/-! ## Claims -/

/-- C1: for a rule of the `replacements` table and a content in which
the rule's pattern matches exactly once, the substitution of lines
110-114 replaces that sole match by the rule's exact replacement text
and keeps every character outside the matched span unchanged. -/
theorem C1_unique_match_substitution (r : Rule) (_hr : r ∈ replacements)
    (pre suf : List Char)
    (hone : occCount (compilePat r.old_pattern)
      (pre ++ compilePat r.old_pattern ++ suf) = 1) :
    reSubFirst r.old_pattern r.new_text (pre ++ compilePat r.old_pattern ++ suf)
      = pre ++ r.new_text.toList ++ suf :=
  replFirst_single (compilePat r.old_pattern) r.new_text.toList pre suf hone

/-- Witness for C1: rule 1 applied to a content that is exactly its own
pattern's literal. -/
theorem C1_witness :
    rule1 ∈ replacements ∧
    occCount (compilePat rule1.old_pattern)
      ([] ++ compilePat rule1.old_pattern ++ []) = 1 ∧
    reSubFirst rule1.old_pattern rule1.new_text
      ([] ++ compilePat rule1.old_pattern ++ []) = [] ++ rule1.new_text.toList ++ [] :=
  ⟨by decide, by decide,
   C1_unique_match_substitution rule1 (by decide) [] [] (by decide)⟩

/-- C2: a configured file is written back exactly when some rule's
pattern matched the content it was tried against during the run. -/
theorem C2_write_iff_matched (fs : FS) (path : String) (content : List Char)
    (h : fs.contents path = some content) :
    ((apply_replacements fs path procPatterns).events.any Event.isWrite = true
      ↔ anyMatched procPatterns content = true) := by
  have hiff := applyPatterns_pos_iff procPatterns procPatterns_repl_ne content 0
  simp only [apply_replacements, h]
  split
  · next hpos =>
    have hm : anyMatched procPatterns content = true := hiff.mp hpos
    simp [Event.isWrite, hm]
  · next hneg =>
    have hm : anyMatched procPatterns content = false := by
      cases hval : anyMatched procPatterns content with
      | false => rfl
      | true => exact absurd (hiff.mpr hval) hneg
    simp [Event.isWrite, hm]

/-- Witness for C2: the file holding the spec's example line, which
rule 1 matches. -/
theorem C2_witness :
    fsTitle.contents "src/processor.ts" = some titleLine.toList ∧
    ((apply_replacements fsTitle "src/processor.ts" procPatterns).events.any
        Event.isWrite = true
      ↔ anyMatched procPatterns titleLine.toList = true) :=
  ⟨rfl, C2_write_iff_matched fsTitle "src/processor.ts" titleLine.toList rfl⟩

/-- C3: a missing (or unreadable) file is reported as a per-file
failure, and the run goes on to process the remaining files exactly as
it would have, with the file system unchanged. -/
theorem C3_missing_file_continues (fs : FS) (path : String)
    (patterns : List (String × String))
    (rest : List (String × List (String × String)))
    (h : fs.contents path = none) :
    (apply_replacements fs path patterns).outcome = FileOutcome.failed ∧
    processAll fs ((path, patterns) :: rest)
      = ⟨(processAll fs rest).fs,
         (apply_replacements fs path patterns).events ++ (processAll fs rest).events,
         FileOutcome.failed :: (processAll fs rest).outcomes⟩ := by
  have hout : (apply_replacements fs path patterns).outcome = FileOutcome.failed := by
    simp [apply_replacements, h]
  have hfs : (apply_replacements fs path patterns).fs = fs := by
    simp [apply_replacements, h]
  refine ⟨hout, ?_⟩
  simp only [processAll]
  rw [hfs, hout]

/-- Witness for C3: the empty file system, on the configured file. -/
theorem C3_witness :
    fsEmpty.contents "src/processor.ts" = none ∧
    ((apply_replacements fsEmpty "src/processor.ts" procPatterns).outcome
        = FileOutcome.failed ∧
     processAll fsEmpty [("src/processor.ts", procPatterns)]
       = ⟨(processAll fsEmpty []).fs,
          (apply_replacements fsEmpty "src/processor.ts" procPatterns).events
            ++ (processAll fsEmpty []).events,
          FileOutcome.failed :: (processAll fsEmpty []).outcomes⟩) :=
  ⟨rfl, C3_missing_file_continues fsEmpty "src/processor.ts" procPatterns [] rfl⟩

/-- C4: a file whose content matches no configured pattern is left
byte-for-byte identical (the whole file system is unchanged), no write
event is emitted, and the outcome is "no changes". -/
theorem C4_no_match_frame (fs : FS) (path : String) (content : List Char)
    (hc : fs.contents path = some content)
    (h : ∀ pr ∈ procPatterns, occursIn (compilePat pr.1) content = false) :
    (apply_replacements fs path procPatterns).fs = fs ∧
    (apply_replacements fs path procPatterns).events.any Event.isWrite = false ∧
    (apply_replacements fs path procPatterns).outcome = FileOutcome.noChanges := by
  have hap : applyPatterns procPatterns content 0 = (content, 0) :=
    applyPatterns_of_no_match content procPatterns h 0
  simp [apply_replacements, hc, hap, Event.isWrite]

/-- Witness for C4: a five-character file that no pattern matches. -/
theorem C4_witness :
    fsSample.contents "src/processor.ts" = some sampleContent ∧
    (∀ pr ∈ procPatterns, occursIn (compilePat pr.1) sampleContent = false) ∧
    ((apply_replacements fsSample "src/processor.ts" procPatterns).fs = fsSample ∧
     (apply_replacements fsSample "src/processor.ts" procPatterns).events.any
        Event.isWrite = false ∧
     (apply_replacements fsSample "src/processor.ts" procPatterns).outcome
        = FileOutcome.noChanges) :=
  ⟨rfl, by decide,
   C4_no_match_frame fsSample "src/processor.ts" sampleContent rfl (by decide)⟩

/-- Counterexample for C5: every configured rule's replacement text no
longer matches that rule's search pattern, yet a content in which rule
17's pattern occurs twice is changed again by a second pass — the
per-rule condition does not make the rule set idempotent. -/
theorem C5_counterexample :
    replacements.all
      (fun r => !(occursIn (compilePat r.old_pattern) r.new_text.toList)) = true ∧
    passOnce (passOnce doubleBreak) ≠ passOnce doubleBreak :=
  ⟨by decide, by decide⟩

/-- C5 (amended): applying the rule set twice yields the same result as
applying it once for any content such that, after the first pass, no
rule's pattern matches the output any more. -/
theorem C5_amended_idempotent (content : List Char)
    (h : ∀ pr ∈ procPatterns, occursIn (compilePat pr.1) (passOnce content) = false) :
    passOnce (passOnce content) = passOnce content := by
  show (applyPatterns procPatterns (passOnce content) 0).1 = passOnce content
  rw [applyPatterns_of_no_match (passOnce content) procPatterns h 0]

/-- Witness for the amended C5: the five-character content, fixed by
the first pass. -/
theorem C5_amended_witness :
    (∀ pr ∈ procPatterns,
      occursIn (compilePat pr.1) (passOnce sampleContent) = false) ∧
    passOnce (passOnce sampleContent) = passOnce sampleContent :=
  ⟨by decide, C5_amended_idempotent sampleContent (by decide)⟩

/-- C6: after all configured files are processed, the build command is
invoked exactly once (no build event precedes it, none follows), and
the run reports success exactly on exit status zero, otherwise prints
the captured standard error. -/
theorem C6_build_invoked_once (fs : FS) (build : BuildResult) :
    ∃ pre : List Event,
      (mainRun fs build).events
        = pre ++ [Event.consolePrint completionMsg, Event.consolePrint runningMsg,
            Event.buildRun buildCmd]
          ++ (if build.returncode = 0 then [Event.consolePrint "✓ Build successful!"]
              else [Event.consolePrint "✗ Build failed:",
                    Event.consolePrint build.stderr]) ∧
      pre.all (fun e => !(Event.isBuild e)) = true :=
  ⟨(processAll fs files_to_process).events, rfl,
   processAll_no_build files_to_process fs⟩

/-- C7: on a failing build, the file system stays exactly as the
patching left it, and no write (and no further build) happens after the
build invocation: the failure is only reported, never rolled back. -/
theorem C7_failure_no_revert (fs : FS) (build : BuildResult)
    (h : build.returncode ≠ 0) :
    (mainRun fs build).fs = (processAll fs files_to_process).fs ∧
    ∃ pre post : List Event,
      (mainRun fs build).events = pre ++ Event.buildRun buildCmd :: post ∧
      post.all (fun e => !(Event.isWrite e) && !(Event.isBuild e)) = true := by
  refine ⟨rfl,
    (processAll fs files_to_process).events
      ++ [Event.consolePrint completionMsg, Event.consolePrint runningMsg],
    [Event.consolePrint "✗ Build failed:", Event.consolePrint build.stderr],
    ?_, rfl⟩
  show (processAll fs files_to_process).events
      ++ [Event.consolePrint completionMsg, Event.consolePrint runningMsg,
          Event.buildRun buildCmd] ++ buildReport build = _
  rw [buildReport, if_neg h]
  simp

/-- Witness for C7: the empty file system and a failing build. -/
theorem C7_witness :
    buildFail.returncode ≠ 0 ∧
    ((mainRun fsEmpty buildFail).fs = (processAll fsEmpty files_to_process).fs ∧
     ∃ pre post : List Event,
       (mainRun fsEmpty buildFail).events = pre ++ Event.buildRun buildCmd :: post ∧
       post.all (fun e => !(Event.isWrite e) && !(Event.isBuild e)) = true) :=
  ⟨by decide, C7_failure_no_revert fsEmpty buildFail (by decide)⟩

/-- Counterexample for C8: the script does not use the platform's
default text encoding — on a platform whose default is cp1252 it still
opens the file with the hard-coded `encoding='utf-8'`. -/
theorem C8_counterexample : ¬ usesDefaultEncoding "cp1252" := by
  unfold usesDefaultEncoding
  decide

/-- C8 (amended): every read and write of a processed file targets that
same path (in place) and passes the explicit UTF-8 encoding. -/
theorem C8_amended_utf8_in_place (fs : FS) (path : String)
    (patterns : List (String × String)) :
    readEncoding = "utf-8" ∧ writeEncoding = "utf-8" ∧
    (apply_replacements fs path patterns).events.all (Event.utf8At path) = true := by
  refine ⟨rfl, rfl, ?_⟩
  cases h : fs.contents path with
  | none => simp [apply_replacements, h, Event.utf8At, readEncoding]
  | some content =>
    simp only [apply_replacements, h]
    split
    · simp [Event.utf8At, readEncoding, writeEncoding]
    · simp [Event.utf8At, readEncoding]

/-- C9: any content containing the spec's example line has it rewritten
by one pass: the fixed line (with the added `data.title !== null`
check) occurs in the output of the pass. -/
theorem C9_title_line_rewrite (content : List Char)
    (h : occursIn titleLine.toList content = true) :
    occursIn titleLineFixed.toList (passOnce content) = true := by
  have hcons : procPatterns = (titlePattern, titleLineFixed) :: procPatterns.drop 1 := rfl
  rw [passOnce, hcons, applyPatterns_cons_fst]
  apply applyPatterns_preserves titleLineFixed.toList (procPatterns.drop 1)
    titleFixed_separated
  have hXl : compilePat titlePattern = titleLine.toList := by decide
  show occursIn titleLineFixed.toList
    (replFirst (compilePat titlePattern) titleLineFixed.toList content) = true
  rw [hXl]
  exact replFirst_contains_rep titleLine.toList titleLineFixed.toList content h

/-- Witness for C9: the content that is exactly the example line. -/
theorem C9_witness :
    occursIn titleLine.toList titleLine.toList = true ∧
    occursIn titleLineFixed.toList (passOnce titleLine.toList) = true :=
  ⟨by decide, C9_title_line_rewrite titleLine.toList (by decide)⟩

/-- C10: whatever the file system holds (every file may be missing),
the run processes all configured files (one outcome each), reaches the
completion message, and invokes the build. -/
theorem C10_completion_always_reached (fs : FS) (build : BuildResult) :
    (mainRun fs build).outcomes.length = files_to_process.length ∧
    ∃ pre : List Event,
      (mainRun fs build).events
        = pre ++ Event.consolePrint completionMsg :: Event.consolePrint runningMsg ::
            Event.buildRun buildCmd :: buildReport build :=
  ⟨processAll_length files_to_process fs,
   ⟨(processAll fs files_to_process).events, by
      show (processAll fs files_to_process).events
          ++ [Event.consolePrint completionMsg, Event.consolePrint runningMsg,
              Event.buildRun buildCmd] ++ buildReport build = _
      simp⟩⟩

end NullFix
